import Mathlib

/-!
Verification of the lifeee-rs simulation core against its specification.

The repository's only source file available here is
`src/components/game.rs` (the yew `Game` component: the Generation
Controller).  The `life` module (`CellSet`, `tick`, `make_cell_alive`)
and the `lexicon` module (`Term`) are declared by their callers in
`game.rs` but their source is not present, so they are modelled from
the spec (each such definition is marked `Modelled from the spec:`).
Everything else is a direct embedding of `game.rs`.
-/

set_option autoImplicit false

/-- A cell coordinate: a pair of signed integers `(x, y)`. -/
abbrev Coord : Type := ℤ × ℤ

/-- A set of live coordinates; one generation of the simulation. -/
abbrev CellSet : Type := Finset Coord

/-- The eight Moore-neighborhood offsets (Chebyshev distance 1). -/
def neighborOffsets : List Coord :=
  [(-1, -1), (-1, 0), (-1, 1), (0, -1), (0, 1), (1, -1), (1, 0), (1, 1)]

/-- The eight Moore neighbors of a coordinate. -/
def neighbors (c : Coord) : Finset Coord :=
  (neighborOffsets.map (fun d => (c.1 + d.1, c.2 + d.2))).toFinset

/-- The number of live cells among the eight Moore neighbors of `c`. -/
def liveNeighborCount (s : CellSet) (c : Coord) : ℕ :=
  ((neighbors c) ∩ s).card

/-- The candidate coordinates for the next generation: live cells and
their Moore neighbors; every other coordinate has no live neighbor. -/
def candidates (s : CellSet) : Finset Coord :=
  s ∪ s.biUnion neighbors

/-- Modelled from the spec: the `life` module's `tick` (spec §4.2),
whose source file is not under `src/`.  Over the candidate set (live
cells and their neighbors), keep a live cell iff its live-neighbor
count is 2 or 3, and birth a dead cell iff its count is 3. -/
def tick (s : CellSet) : CellSet :=
  (candidates s).filter
    (fun c =>
      (c ∈ s ∧ (liveNeighborCount s c = 2 ∨ liveNeighborCount s c = 3)) ∨
      (c ∉ s ∧ liveNeighborCount s c = 3))

/-- Modelled from the spec: the `life` module's `make_cell_alive`
(spec §4.1/§4.3), whose source file is not under `src/`: insertion of
one cell, returning a new set; a no-op on an already-live cell. -/
def make_cell_alive (cells : CellSet) (cell : Coord) : CellSet :=
  insert cell cells

/-- Modelled from the spec: `lexicon::Term` (spec §3 Pattern/Term),
whose source file is not under `src/`: a named template holding an
ordered list of relative live-cell coordinates plus a declared
bounding `width` and `height` (advisory view-framing hints). -/
structure Term where
  name : String
  cells : List Coord
  width : ℕ
  height : ℕ

/-- The messages handled by `Game::update` in `game.rs`.  `f64`
payloads (zoom, offset) only ever get stored, never computed with, so
they are embedded as rationals; `Resize` carries the window dimensions
the handler reads from the environment. -/
inductive Msg where
  | NextTick : Msg
  | Play : Msg
  | Pause : Msg
  | ChangeSpeed : ℕ → Msg
  | ApplyPattern : Term → Msg
  | ChangeZoomAndOffset : Option ℚ × Option (ℚ × ℚ) → Msg
  | Resize : ℕ → ℕ → Msg

/-- The `Game` struct of `game.rs`.  `tickCount` is the `tick: u32`
field (kept below `2^32` by wrapping arithmetic in the update);
`interval` is `Some` of the timer period in milliseconds exactly when
a `gloo` `Interval` is active; the `_resize_handle` field has no
simulation-visible state and is omitted. -/
structure GameState where
  cells : CellSet
  previous_gens : List CellSet
  tickCount : ℕ
  interval : Option ℕ
  speed : ℕ
  adjust_offset : Option (ℕ × ℕ)
  offset : ℚ × ℚ
  zoom : ℚ
  width : ℕ
  height : ℕ

/-- The `f64` period computation in `Game::start_interval`:
`(50_f64 - 500_f64) / 9_f64 * speed + 500_f64`.  Every intermediate
value is an integer exactly representable in `f64` (the quotient
`-450/9 = -50` is exact), so the computation is embedded exactly over
`ℚ`. -/
def interval_millis (speed : ℕ) : ℚ :=
  (50 - 500) / 9 * speed + 500

/-- Rust's `as u32` cast on an `f64` value: truncation toward zero,
saturating at the bounds.  On the (integer-valued) rationals produced
by `interval_millis` the floor agrees with truncation wherever the
result is not already saturated to `0`. -/
def f64_as_u32 (q : ℚ) : ℕ :=
  min (2 ^ 32 - 1) ⌊q⌋.toNat

/-- Embedding of `Game::start_interval`: sends one `NextTick` message immediately,
then installs a fresh `Interval` with the period derived from
`self.speed`.  Returns the new state and the messages sent to self. -/
def start_interval (s : GameState) : GameState × List Msg :=
  ({ s with interval := some (f64_as_u32 (interval_millis s.speed)) },
   [Msg.NextTick])

/-- Embedding of `Game::update` from `game.rs`.  `numPrevious` is
`settings.num_previous`, read fresh from the settings context on every
call.  The Rust handler also returns a rerender flag that is `true` in
every arm; it is omitted.  The second component is the list of
messages the handler sends to its own link while running.  The
`previous_gens` arm mirrors the Vec → VecDeque → Vec round trip:
push-front of the pre-tick cells, then a single pop-back when the
length exceeds `numPrevious`. -/
def update (s : GameState) (numPrevious : ℕ) (msg : Msg) :
    GameState × List Msg :=
  match msg with
  | Msg.NextTick =>
      let pushed := s.cells :: s.previous_gens
      ({ s with
          tickCount := (s.tickCount + 1) % 2 ^ 32
          adjust_offset := none
          previous_gens :=
            if pushed.length > numPrevious then pushed.dropLast else pushed
          cells := tick s.cells }, [])
  | Msg.Play => start_interval s
  | Msg.Pause => ({ s with interval := none }, [])
  | Msg.ChangeSpeed speed =>
      let s' := { s with speed := speed }
      if s'.interval.isSome then start_interval s' else (s', [])
  | Msg.ApplyPattern term =>
      ({ s with
          cells := term.cells.foldl make_cell_alive ∅
          tickCount := 0
          previous_gens := []
          adjust_offset := some (term.width, term.height) }, [])
  | Msg.ChangeZoomAndOffset zo =>
      let s' := match zo.1 with
        | some zoom => { s with zoom := zoom }
        | none => s
      (match zo.2 with
        | some offset => { s' with offset := offset }
        | none => s', [])
  | Msg.Resize w h => ({ s with width := w, height := h }, [])

/-- Embedding of `Component::create` for `Game`: the freshly constructed
controller state. -/
def initState : GameState :=
  { cells := ∅
    previous_gens := []
    tickCount := 0
    interval := none
    speed := 5
    adjust_offset := none
    offset := (0, 0)
    zoom := 1
    width := 300
    height := 200 }

/-- Iterated ticking: `k` successive `NextTick` requests, `settings.num_previous` held
fixed at `n` throughout. -/
def tickIter (n : ℕ) : ℕ → GameState → GameState
  | 0, s => s
  | k + 1, s => (update (tickIter n k s) n Msg.NextTick).1

/-- A controller state whose `tick` counter sits at the `u32` maximum;
reachable in principle after `2^32 - 1` ticks. -/
def maxTickState : GameState :=
  { initState with tickCount := 2 ^ 32 - 1 }

/-- A controller state with an active timer (period 250 ms). -/
def runningState : GameState :=
  { initState with interval := some 250 }

/-- A controller state whose history ring holds two entries, as left
behind by two ticks taken before `num_previous` was shrunk to 0. -/
def overfullState : GameState :=
  { initState with previous_gens := [∅, ∅] }

lemma mem_neighbors {ax ay cx cy : ℤ} :
    ((ax, ay) : Coord) ∈ neighbors (cx, cy) ↔
      (ax = cx - 1 ∨ ax = cx ∨ ax = cx + 1) ∧
      (ay = cy - 1 ∨ ay = cy ∨ ay = cy + 1) ∧ ¬(ax = cx ∧ ay = cy) := by
  simp only [neighbors, neighborOffsets, List.map_cons, List.map_nil,
    List.mem_toFinset, List.mem_cons, List.not_mem_nil, or_false,
    Prod.mk.injEq]
  omega

lemma neighbors_comm {a c : Coord} : a ∈ neighbors c ↔ c ∈ neighbors a := by
  obtain ⟨ax, ay⟩ := a
  obtain ⟨cx, cy⟩ := c
  rw [mem_neighbors, mem_neighbors]
  omega

lemma liveNeighborCount_pos {s : CellSet} {c : Coord}
    (h : liveNeighborCount s c ≠ 0) : c ∈ s.biUnion neighbors := by
  have h' : (neighbors c ∩ s).Nonempty := by
    rw [← Finset.card_pos]
    exact Nat.pos_of_ne_zero h
  obtain ⟨p, hp⟩ := h'
  rw [Finset.mem_inter] at hp
  exact Finset.mem_biUnion.mpr ⟨p, hp.2, neighbors_comm.mp hp.1⟩

/-- C1: a coordinate is in `tick s` iff it is live with live-neighbor
count 2 or 3, or dead with live-neighbor count 3; `tick` is a total
function on all of `CellSet` (the empty set included), hence
deterministic. -/
theorem tick_mem_iff (s : CellSet) (c : Coord) :
    c ∈ tick s ↔
      (c ∈ s ∧ (liveNeighborCount s c = 2 ∨ liveNeighborCount s c = 3)) ∨
      (c ∉ s ∧ liveNeighborCount s c = 3) := by
  rw [tick, Finset.mem_filter]
  constructor
  · rintro ⟨-, h⟩
    exact h
  · intro h
    refine ⟨?_, h⟩
    rw [candidates, Finset.mem_union]
    rcases h with ⟨hc, -⟩ | ⟨-, hcnt⟩
    · exact Or.inl hc
    · exact Or.inr (liveNeighborCount_pos (by omega))

lemma nextTick_history_length (s : GameState) (n : ℕ) :
    (update s n Msg.NextTick).1.previous_gens.length =
      if n < s.previous_gens.length + 1
      then s.previous_gens.length
      else s.previous_gens.length + 1 := by
  simp only [update, gt_iff_lt, List.length_cons]
  split_ifs with h
  · simp
  · simp

/-- C2 (amended): one `NextTick` increments the generation counter
modulo `2^32` (`tick` is a `u32`; the increment is by exactly 1
whenever the counter is below `2^32 - 1`, wrapping to 0 at the
maximum), records the pre-tick cells at the front of the history ring
(evicting one entry from the back when over capacity), and replaces
the current cells with `tick` of the pre-tick cells. -/
theorem nextTick_step_spec (s : GameState) (n : ℕ) :
    (update s n Msg.NextTick).1.tickCount = (s.tickCount + 1) % 2 ^ 32 ∧
    (s.tickCount < 2 ^ 32 - 1 →
      (update s n Msg.NextTick).1.tickCount = s.tickCount + 1) ∧
    (update s n Msg.NextTick).1.previous_gens =
      (if n < s.previous_gens.length + 1
        then (s.cells :: s.previous_gens).dropLast
        else s.cells :: s.previous_gens) ∧
    (update s n Msg.NextTick).1.cells = tick s.cells := by
  refine ⟨rfl, ?_, ?_, rfl⟩
  · intro h
    show (s.tickCount + 1) % 2 ^ 32 = s.tickCount + 1
    omega
  · simp only [update, gt_iff_lt, List.length_cons]

theorem nextTick_step_spec_witness :
    (update initState 1 Msg.NextTick).1.tickCount = initState.tickCount + 1 :=
  (nextTick_step_spec initState 1).2.1 (by norm_num [initState])

/-- C2 counterexample: at the `u32` maximum the counter does not
increase by 1 on the next tick; it wraps to 0. -/
theorem nextTick_counter_wrap_cex :
    (update maxTickState 1 Msg.NextTick).1.tickCount ≠
      maxTickState.tickCount + 1 := by
  show (2 ^ 32 - 1 + 1) % 2 ^ 32 ≠ 2 ^ 32 - 1 + 1
  norm_num

/-- C3: with `num_previous` fixed at `n`, after `k` ticks from a state
with an empty history ring (freshly constructed or freshly
pattern-seeded) the ring length is `min k n`, hence never exceeds `n`;
and a pattern apply empties the ring from any prior state. -/
theorem history_ring_length (s : GameState) (n k : ℕ)
    (h : s.previous_gens = []) :
    ((tickIter n k s).previous_gens.length = min k n ∧
      (tickIter n k s).previous_gens.length ≤ n) ∧
    ∀ (s' : GameState) (t : Term),
      (update s' n (Msg.ApplyPattern t)).1.previous_gens.length = 0 := by
  have hmin : (tickIter n k s).previous_gens.length = min k n := by
    induction k with
    | zero => simp [tickIter, h]
    | succ k ih =>
        have hstep := nextTick_history_length (tickIter n k s) n
        rw [show tickIter n (k + 1) s =
          (update (tickIter n k s) n Msg.NextTick).1 from rfl, hstep, ih]
        split_ifs with hc <;> omega
  exact ⟨⟨hmin, by omega⟩, fun s' t => rfl⟩

theorem history_ring_length_witness :
    (tickIter 2 5 initState).previous_gens.length = min 5 2 :=
  ((history_ring_length initState 2 5 rfl).1).1

/-- C5: a pattern apply folds the template's coordinate list into a
cell set by repeated single-cell insertion starting from the empty
set, resets the generation counter to 0, empties the history ring,
and records the declared width/height as the view-reframing hint. -/
theorem applyPattern_spec (s : GameState) (n : ℕ) (t : Term) :
    (update s n (Msg.ApplyPattern t)).1.cells =
      t.cells.foldl make_cell_alive ∅ ∧
    (update s n (Msg.ApplyPattern t)).1.tickCount = 0 ∧
    (update s n (Msg.ApplyPattern t)).1.previous_gens = [] ∧
    (update s n (Msg.ApplyPattern t)).1.adjust_offset =
      some (t.width, t.height) :=
  ⟨rfl, rfl, rfl, rfl⟩

/-- C6 (amended): a speed change while running restarts the timer
with the new period and leaves the simulation state (cells, history
ring, generation counter) unchanged, but it also immediately requests
one tick (the restart goes through `start_interval`, which sends
`NextTick` first, exactly as a play request does). -/
theorem changeSpeed_running_spec (s : GameState) (n sp p : ℕ)
    (h : s.interval = some p) :
    (update s n (Msg.ChangeSpeed sp)).1.cells = s.cells ∧
    (update s n (Msg.ChangeSpeed sp)).1.previous_gens = s.previous_gens ∧
    (update s n (Msg.ChangeSpeed sp)).1.tickCount = s.tickCount ∧
    (update s n (Msg.ChangeSpeed sp)).1.interval =
      some (f64_as_u32 (interval_millis sp)) ∧
    (update s n (Msg.ChangeSpeed sp)).2 = [Msg.NextTick] := by
  simp [update, start_interval, h]

theorem changeSpeed_running_spec_witness :
    (update runningState 1 (Msg.ChangeSpeed 7)).2 = [Msg.NextTick] :=
  (changeSpeed_running_spec runningState 1 7 250 rfl).2.2.2.2

/-- C6 counterexample: from a running state, a speed-change request
does force an immediate tick request (`start_interval` sends
`NextTick` before installing the new timer). -/
theorem changeSpeed_forces_tick_cex :
    runningState.interval.isSome = true ∧
    (update runningState 1 (Msg.ChangeSpeed 3)).2 = [Msg.NextTick] :=
  ⟨rfl, rfl⟩

/-- C7: play from an idle state installs the timer with the period
derived from the current speed (the controller becomes running) and
immediately sends exactly one tick request; pause removes the timer
and sends nothing. -/
theorem play_pause_spec (s : GameState) (n : ℕ) (h : s.interval = none) :
    (update s n Msg.Play).1.interval =
      some (f64_as_u32 (interval_millis s.speed)) ∧
    (update s n Msg.Play).2 = [Msg.NextTick] ∧
    ∀ s' : GameState,
      (update s' n Msg.Pause).1.interval = none ∧
      (update s' n Msg.Pause).2 = [] :=
  ⟨rfl, rfl, fun s' => ⟨rfl, rfl⟩⟩

theorem play_pause_spec_witness :
    (update initState 1 Msg.Play).2 = [Msg.NextTick] :=
  (play_pause_spec initState 1 rfl).2.1

/-- C8: neither a tick request nor a pattern-apply request touches the
`interval` field, so the Idle/Running status is unchanged by both. -/
theorem status_preserved (s : GameState) (n : ℕ) (t : Term) :
    (update s n Msg.NextTick).1.interval = s.interval ∧
    (update s n (Msg.ApplyPattern t)).1.interval = s.interval :=
  ⟨rfl, rfl⟩

/-- C9 (amended): each tick pushes one entry and pops at most one, so
from any state whose ring length exceeds `num_previous` the length
stays exactly constant under ticking — the excess never shrinks and
the `num_previous` bound is never restored by ticks alone. -/
theorem overfull_history_constant (s : GameState) (n : ℕ)
    (h : n < s.previous_gens.length) :
    ∀ k, (tickIter n k s).previous_gens.length =
      s.previous_gens.length := by
  intro k
  induction k with
  | zero => rfl
  | succ k ih =>
      have hstep := nextTick_history_length (tickIter n k s) n
      rw [show tickIter n (k + 1) s =
        (update (tickIter n k s) n Msg.NextTick).1 from rfl, hstep, ih]
      split_ifs with hc <;> omega

theorem overfull_history_constant_witness :
    (tickIter 0 4 overfullState).previous_gens.length =
      overfullState.previous_gens.length :=
  overfull_history_constant overfullState 0 (by decide) 4

/-- C9 counterexample: with `num_previous = 0` and a ring of length
2 (excess `d = 2`), one tick leaves the length at 2 — not at
`0 + (2 - 1)` — and after `1 + d = 3` ticks the ring is still
over the bound. -/
theorem overfull_history_cex :
    overfullState.previous_gens.length = 0 + 2 ∧
    (tickIter 0 1 overfullState).previous_gens.length ≠ 0 + (2 - 1) ∧
    0 < (tickIter 0 3 overfullState).previous_gens.length := by
  refine ⟨rfl, ?_, ?_⟩ <;> decide

/-- C10: a tick request unconditionally clears `adjust_offset`, so
the view-reframing hint recorded by a pattern apply survives only
until the next tick request. -/
theorem hint_cleared_on_tick (s : GameState) (n n' : ℕ) (t : Term) :
    (update s n (Msg.ApplyPattern t)).1.adjust_offset =
      some (t.width, t.height) ∧
    (update (update s n (Msg.ApplyPattern t)).1 n'
      Msg.NextTick).1.adjust_offset = none :=
  ⟨rfl, rfl⟩

/-- C4 (amended): for every speed in `[1, 10]` the period is
`(50 - 500) / 9 * speed + 500 = 500 - 50 * speed` milliseconds; in
particular speed 1 yields 450 ms and speed 10 yields 0 ms, and that
value is what `start_interval` hands to the timer. -/
theorem speed_period_spec (sp : ℕ) (h1 : 1 ≤ sp) (h2 : sp ≤ 10) :
    interval_millis sp = 500 - 50 * (sp : ℚ) ∧
    f64_as_u32 (interval_millis sp) = 500 - 50 * sp ∧
    f64_as_u32 (interval_millis 1) = 450 ∧
    f64_as_u32 (interval_millis 10) = 0 ∧
    ∀ s : GameState, s.speed = sp →
      (start_interval s).1.interval = some (500 - 50 * sp) := by
  have key : ∀ m : ℕ, m ≤ 10 →
      f64_as_u32 (interval_millis m) = 500 - 50 * m := by
    intro m hm
    have hq : interval_millis m = ((500 - 50 * (m : ℤ) : ℤ) : ℚ) := by
      unfold interval_millis
      push_cast
      ring
    rw [f64_as_u32, hq, Int.floor_intCast]
    omega
  refine ⟨?_, key sp h2, ?_, ?_, ?_⟩
  · unfold interval_millis
    ring
  · rw [key 1 (by norm_num)]
  · rw [key 10 (by norm_num)]
  · intro s hs
    simp only [start_interval, hs, key sp h2]

theorem speed_period_spec_witness :
    f64_as_u32 (interval_millis 3) = 500 - 50 * 3 :=
  (speed_period_spec 3 (by norm_num) (by norm_num)).2.1

/-- C4 counterexample: the formula of the claim does not yield the
endpoint values the claim also asserts — speed 1 gives a 450 ms
period (not 500 ms) and speed 10 gives 0 ms (not 50 ms). -/
theorem speed_period_cex :
    f64_as_u32 (interval_millis 1) ≠ 500 ∧
    f64_as_u32 (interval_millis 10) ≠ 50 := by
  have e1 : interval_millis 1 = ((450 : ℤ) : ℚ) := by
    unfold interval_millis
    norm_num
  have e10 : interval_millis 10 = ((0 : ℤ) : ℚ) := by
    unfold interval_millis
    norm_num
  rw [f64_as_u32, f64_as_u32, e1, e10, Int.floor_intCast, Int.floor_intCast]
  refine ⟨?_, ?_⟩ <;> omega
